import Mathlib

/-!
Shallow embedding of the estimation-and-aggregation core of
`src/new_project/server.py`: per-line sliding-window smoothing
(`Agent.ingest`, lines 147-216), hysteresis state detection (lines
180-206), per-minute aggregation and flush (`Agent.flush_minutes`,
lines 218-234), the offline watchdog (`Agent.handle_offline`, lines
236-250, driven by `background_worker`, lines 946-979), and the daily
segment reconstruction and merge pass (`Agent.get_daily_work_idle`,
lines 282-352).

Python ints are modelled as `Int` (note Lean's `Int` division is
floor division for positive divisors, matching Python `//` on the
positive operands used here); float speeds are modelled as `ℚ`;
Python dicts keyed by `(lineId, minuteTs)` are modelled as
association lists.
-/

/-- One entry of a line's `messages` window:
`{'pulses': pulses, 'duration': duration_ms, 'ts': ts}` (server.py:165). -/
structure Msg where
  pulses : Int
  duration : Int
  ts : Int
deriving DecidableEq, Repr

/-- Per-line runtime state, the dict created at server.py:155-162. -/
structure LineState where
  messages : List Msg
  lastPacket : Int
  lastState : Int
  holdStart : Int
  holdStop : Int
  smoothedSpeed : ℚ
deriving DecidableEq, Repr

/-- The settings consumed by `Agent.ingest` (server.py:168,180-183). -/
structure Config where
  windowSec : Int
  vStart : ℚ
  vStop : ℚ
  delayStart : Int
  delayStop : Int
deriving DecidableEq, Repr

/-- The defaults hard-coded in `Agent.ingest`:
windowSec 60, V_START 0.5, V_STOP 0.3, delayStart 30, delayStop 30. -/
def cfgStd : Config := ⟨60, 1/2, 3/10, 30, 30⟩

/-- Timestamp normalisation (server.py:148-151): an epoch-milliseconds
value (> 1e12) is floor-divided down to seconds. -/
def normTs (ts : Int) : Int :=
  if ts > 10 ^ 12 then ts / 1000 else ts

/-- The fresh line dict created on first packet (server.py:155-162). -/
def blankLine (ts : Int) : LineState :=
  { messages := [], lastPacket := ts, lastState := 0,
    holdStart := 0, holdStop := 0, smoothedSpeed := 0 }

/-- Smoothed speed over the retained window (server.py:171-177):
`(total_pulses / (total_duration / 1000)) * 60`, `0` when the total
duration is not positive. -/
def computeSmoothed (msgs : List Msg) : ℚ :=
  let totalPulses : Int := (msgs.map (·.pulses)).sum
  let totalDuration : Int := (msgs.map (·.duration)).sum
  if totalDuration > 0 then
    ((totalPulses : ℚ) / ((totalDuration : ℚ) / 1000)) * 60
  else 0

/-- Hysteresis state detection (server.py:184-206).  Returns the
updated line state and the `state_changed` flag.  `holdStart = 0` /
`holdStop = 0` play the role of Python falsiness of the hold fields. -/
def detect (cfg : Config) (st : LineState) (smoothed : ℚ) (ts : Int) :
    LineState × Bool :=
  if st.lastState = 1 then
    if smoothed ≤ cfg.vStop then
      let hs := if st.holdStop = 0 then ts else st.holdStop
      if ts - hs ≥ cfg.delayStop then
        ({ st with lastState := 0, holdStop := 0, holdStart := 0 }, true)
      else
        ({ st with holdStop := hs }, false)
    else
      ({ st with holdStop := 0 }, false)
  else
    if smoothed ≥ cfg.vStart then
      let hs := if st.holdStart = 0 then ts else st.holdStart
      if ts - hs ≥ cfg.delayStart then
        ({ st with lastState := 1, holdStart := 0, holdStop := 0 }, true)
      else
        ({ st with holdStart := hs }, false)
    else
      ({ st with holdStart := 0 }, false)

/-- One `Agent.ingest` call for a single line (server.py:147-206,
without the minute aggregation, which is modelled separately on the
minute map).  Returns the updated line state, the smoothed speed, the
`state_changed` flag and the new state. -/
def ingestLine (cfg : Config) (line? : Option LineState)
    (pulses duration rawTs : Int) : LineState × ℚ × Bool × Int :=
  let ts := normTs rawTs
  let line := line?.getD (blankLine ts)
  let msgs := (line.messages ++ [Msg.mk pulses duration ts]).filter
    (fun m => m.ts ≥ ts - cfg.windowSec)
  let smoothed := computeSmoothed msgs
  let line :=
    { line with messages := msgs, lastPacket := ts, smoothedSpeed := smoothed }
  let r := detect cfg line smoothed ts
  (r.1, smoothed, r.2, r.1.lastState)

example : normTs 1600000000 = 1600000000 := by decide
example : normTs 1600000000000 = 1600000000 := by decide
example : computeSmoothed [⟨5, 1000, 100⟩] = 300 := by
  norm_num [computeSmoothed]

/-- One row of the `status_log` slice read by `get_daily_work_idle`
(server.py:289-293). -/
structure Event where
  timestamp : Int
  isRunning : Int
deriving DecidableEq, Repr

/-- One reconstructed segment `{'start': .., 'end': .., 'state': ..}`
(server.py:318).  `endTs` models the Python key `end`. -/
structure Seg where
  start : Int
  endTs : Int
  state : Int
deriving DecidableEq, Repr

/-- The event walk of server.py:315-321: close a segment at every
state change, then close the final segment at `day_end`. -/
def buildSegAux (dayEnd : Int) : List Event → Int → Int → List Seg
  | [], state, segStart => [Seg.mk segStart dayEnd state]
  | ev :: rest, state, segStart =>
      if ev.isRunning ≠ state then
        Seg.mk segStart ev.timestamp state ::
          buildSegAux dayEnd rest ev.isRunning ev.timestamp
      else
        buildSegAux dayEnd rest state segStart

/-- Segments of one day window (server.py:312-321): start from the
carried-in state at `dayStart` and walk the day's events. -/
def buildSegments (dayStart dayEnd initState : Int) (events : List Event) :
    List Seg :=
  buildSegAux dayEnd events initState dayStart

/-- One step of the merge loop of server.py:324-340, with the merged
list kept in reverse so that Python's `merged[-1]` is the head. -/
def mergeStep (acc : List Seg) (seg : Seg) : List Seg :=
  let dur := seg.endTs - seg.start
  if seg.state = 1 ∧ dur < 60 then
    match acc with
    | last :: rest =>
        if last.state = 0 then { last with endTs := seg.endTs } :: rest
        else Seg.mk seg.start seg.endTs 0 :: last :: rest
    | [] => [Seg.mk seg.start seg.endTs 0]
  else if seg.state = 0 ∧ dur < 60 then
    match acc with
    | last :: rest =>
        if last.state = 1 then { last with endTs := seg.endTs } :: rest
        else Seg.mk seg.start seg.endTs 1 :: last :: rest
    | [] => [Seg.mk seg.start seg.endTs 1]
  else
    seg :: acc

/-- The merge pass of server.py:323-340: a segment shorter than 60
seconds is reinterpreted as the opposite state and merged into the
preceding merged segment when that one already has the reinterpreted
state, otherwise appended with the reinterpreted state. -/
def mergeSegments (segs : List Seg) : List Seg :=
  (segs.foldl mergeStep []).reverse

/-- The run/down tally of server.py:341-348: `(run_sec, down_sec)`. -/
def tallySeconds (segs : List Seg) : Int × Int :=
  segs.foldl (fun acc s =>
    let dur := s.endTs - s.start
    if s.state = 1 then (acc.1 + dur, acc.2) else (acc.1, acc.2 + dur))
    (0, 0)

/-- The transition log of the segment-merge example:
stop@0, run@1000, stop@1030, run@5000. -/
def c1events : List Event :=
  [Event.mk 0 0, Event.mk 1000 1, Event.mk 1030 0, Event.mk 5000 1]

example : buildSegments 0 86400 0 c1events =
    [Seg.mk 0 1000 0, Seg.mk 1000 1030 1, Seg.mk 1030 5000 0,
     Seg.mk 5000 86400 1] := by decide

example : mergeSegments (buildSegments 0 86400 0 c1events) =
    [Seg.mk 0 1030 0, Seg.mk 1030 5000 0, Seg.mk 5000 86400 1] := by decide

/-- Predicate `Chained a segs b`: the segments tile `[a, b)` without gaps or
overlaps — each segment starts where its predecessor ended. -/
def Chained : Int → List Seg → Int → Prop
  | a, [], b => a = b
  | a, seg :: rest, b => seg.start = a ∧ Chained seg.endTs rest b

lemma chained_snoc {a b : Int} {xs : List Seg} {s : Seg} :
    Chained a (xs ++ [s]) b ↔ Chained a xs s.start ∧ s.endTs = b := by
  induction xs generalizing a with
  | nil => simp [Chained, eq_comm]
  | cons hd tl ih => simp [Chained, ih, and_assoc]

lemma buildSegAux_chained (dayEnd : Int) :
    ∀ (evs : List Event) (state segStart : Int),
      Chained segStart (buildSegAux dayEnd evs state segStart) dayEnd := by
  intro evs
  induction evs with
  | nil => intro state segStart; simp [buildSegAux, Chained]
  | cons ev rest ih =>
      intro state segStart
      by_cases h : ev.isRunning ≠ state
      · simp only [buildSegAux, if_pos h, Chained]
        exact ⟨by simp, ih ev.isRunning ev.timestamp⟩
      · simpa only [buildSegAux, if_neg h] using ih state segStart

lemma chained_cons_reverse {a c : Int} {acc : List Seg} {s' : Seg}
    (h : Chained a acc.reverse c) (h1 : s'.start = c) :
    Chained a ((s' :: acc).reverse) s'.endTs := by
  rw [List.reverse_cons]
  exact chained_snoc.mpr ⟨by rw [h1]; exact h, rfl⟩

lemma chained_extend_reverse {a c : Int} {last : Seg} {rest : List Seg}
    (e : Int) (h : Chained a ((last :: rest).reverse) c) :
    Chained a (({ last with endTs := e } :: rest).reverse) e := by
  rw [List.reverse_cons] at h
  obtain ⟨h1, _⟩ := chained_snoc.mp h
  rw [List.reverse_cons]
  exact chained_snoc.mpr ⟨h1, rfl⟩

lemma mergeStep_chained {acc : List Seg} {seg : Seg} {a c : Int}
    (h : Chained a acc.reverse c) (hs : seg.start = c) :
    Chained a (mergeStep acc seg).reverse seg.endTs := by
  rcases acc with _ | ⟨last, rest⟩
  · simp only [mergeStep]
    split_ifs <;> exact chained_cons_reverse h hs
  · simp only [mergeStep]
    split_ifs <;>
      first
        | exact chained_extend_reverse seg.endTs h
        | exact chained_cons_reverse h hs

lemma mergeFold_chained {a b : Int} :
    ∀ (segs : List Seg) (acc : List Seg) (c : Int),
      Chained a acc.reverse c → Chained c segs b →
      Chained a ((segs.foldl mergeStep acc).reverse) b := by
  intro segs
  induction segs with
  | nil =>
      intro acc c hacc hsegs
      have hcb : c = b := hsegs
      subst hcb
      simpa using hacc
  | cons seg rest ih =>
      intro acc c hacc hsegs
      obtain ⟨h1, h2⟩ := hsegs
      exact ih (mergeStep acc seg) seg.endTs (mergeStep_chained hacc h1) h2

lemma mergeSegments_chained {a b : Int} {segs : List Seg}
    (h : Chained a segs b) : Chained a (mergeSegments segs) b :=
  mergeFold_chained segs [] a rfl h

lemma chained_sum {a b : Int} :
    ∀ {segs : List Seg}, Chained a segs b →
      ((segs.map (fun s => s.endTs - s.start)).sum) = b - a := by
  intro segs
  induction segs generalizing a with
  | nil => intro h; have hab : a = b := h; simp [hab]
  | cons seg rest ih =>
      intro h
      obtain ⟨h1, h2⟩ := h
      simp only [List.map_cons, List.sum_cons, ih h2, h1]
      ring

lemma tallySeconds_sum :
    ∀ (segs : List Seg) (p : Int × Int),
      (segs.foldl (fun acc s =>
        let dur := s.endTs - s.start
        if s.state = 1 then (acc.1 + dur, acc.2) else (acc.1, acc.2 + dur))
        p).1 +
      (segs.foldl (fun acc s =>
        let dur := s.endTs - s.start
        if s.state = 1 then (acc.1 + dur, acc.2) else (acc.1, acc.2 + dur))
        p).2 =
      p.1 + p.2 + ((segs.map (fun s => s.endTs - s.start)).sum) := by
  intro segs
  induction segs with
  | nil => intro p; simp
  | cons seg rest ih =>
      intro p
      simp only [List.foldl_cons, List.map_cons, List.sum_cons]
      rw [ih]
      by_cases h : seg.state = 1 <;> simp [h] <;> ring

/-- C1 (counterexample): on the transition log
[stop@0, run@1000, stop@1030, run@5000] over day [0, 86400) with
initial state stop, the merge pass does NOT produce one continuous
idle segment [0, 5000): no segment [0, 5000) appears in the merged
output, which is [0,1030) idle, [1030,5000) idle, [5000,86400) run. -/
theorem segment_merge_not_single_idle :
    Seg.mk 0 5000 0 ∉ mergeSegments (buildSegments 0 86400 0 c1events) ∧
    mergeSegments (buildSegments 0 86400 0 c1events) ≠
      [Seg.mk 0 5000 0, Seg.mk 5000 86400 1] := by
  decide

/-- C1 (amended): on the transition log
[stop@0, run@1000, stop@1030, run@5000] over day [0, 86400) with
initial state stop and threshold 60s, the 30-second run segment
[1000,1030) is reinterpreted as idle and merged into the immediately
preceding idle segment only, yielding idle segments [0,1030) and
[1030,5000) (not three separate segments, but not one either), with
idle = 5000 seconds for that portion of the day. -/
theorem segment_merge_example :
    mergeSegments (buildSegments 0 86400 0 c1events) =
      [Seg.mk 0 1030 0, Seg.mk 1030 5000 0, Seg.mk 5000 86400 1] ∧
    (tallySeconds (mergeSegments (buildSegments 0 86400 0 c1events))).2 =
      5000 := by
  decide

/-- C2: for every day window, every event list and every initial
state, the work seconds plus idle seconds summed over the merged
segments equal exactly dayEnd - dayStart: the merged segments have no
gaps and no overlaps. -/
theorem merged_segments_cover_day
    (dayStart dayEnd initState : Int) (events : List Event) :
    (tallySeconds (mergeSegments
        (buildSegments dayStart dayEnd initState events))).1 +
      (tallySeconds (mergeSegments
        (buildSegments dayStart dayEnd initState events))).2 =
      dayEnd - dayStart := by
  have hch : Chained dayStart
      (mergeSegments (buildSegments dayStart dayEnd initState events))
      dayEnd :=
    mergeSegments_chained (buildSegAux_chained dayEnd events initState dayStart)
  have hsum := chained_sum hch
  have htally := tallySeconds_sum
    (mergeSegments (buildSegments dayStart dayEnd initState events)) (0, 0)
  simpa [tallySeconds, hsum] using htally

/-- Run `detect` over a list of (smoothed speed, timestamp) samples,
collecting each call's `state_changed` flag and the final state. -/
def detectTrace (cfg : Config) (st : LineState) :
    List (ℚ × Int) → List Bool × LineState
  | [] => ([], st)
  | (sp, ts) :: rest =>
      let r := detect cfg st sp ts
      let t := detectTrace cfg r.1 rest
      (r.2 :: t.1, t.2)

lemma detect_stopped_hold_set {st : LineState} {t0 ts : Int} {sp : ℚ}
    (hstate : st.lastState = 0) (hhold : st.holdStart = t0) (ht0 : t0 ≠ 0)
    (hsp : sp ≥ cfgStd.vStart) (hts : ts - t0 < 30) :
    detect cfgStd st sp ts = ({ st with holdStart := t0 }, false) := by
  have hns : ¬ st.lastState = 1 := by rw [hstate]; decide
  have hd : ¬ ts - t0 ≥ cfgStd.delayStart := by
    show ¬ ts - t0 ≥ 30; omega
  simp only [detect, if_neg hns, if_pos hsp, hhold, if_neg ht0, if_neg hd]

lemma detect_stopped_hold_start {st : LineState} {ts : Int} {sp : ℚ}
    (hstate : st.lastState = 0) (hhold : st.holdStart = 0)
    (hsp : sp ≥ cfgStd.vStart) :
    detect cfgStd st sp ts = ({ st with holdStart := ts }, false) := by
  have hns : ¬ st.lastState = 1 := by rw [hstate]; decide
  have hd : ¬ ts - ts ≥ cfgStd.delayStart := by
    show ¬ ts - ts ≥ 30; omega
  simp only [detect, if_neg hns, if_pos hsp, hhold,
    if_pos (show (0 : Int) = 0 from rfl), if_true, if_neg hd]

lemma detect_stopped_fires {st : LineState} {t0 ts : Int} {sp : ℚ}
    (hstate : st.lastState = 0) (hhold : st.holdStart = t0) (ht0 : t0 ≠ 0)
    (hsp : sp ≥ cfgStd.vStart) (hts : ts - t0 ≥ 30) :
    detect cfgStd st sp ts =
      ({ st with lastState := 1, holdStart := 0, holdStop := 0 }, true) := by
  have hns : ¬ st.lastState = 1 := by rw [hstate]; decide
  have hd : ts - t0 ≥ cfgStd.delayStart := by
    show ts - t0 ≥ 30; omega
  simp only [detect, if_neg hns, if_pos hsp, hhold, if_neg ht0, if_pos hd]

lemma detect_running_quiet {st : LineState} {ts : Int} {sp : ℚ}
    (hstate : st.lastState = 1) (hsp : ¬ sp ≤ cfgStd.vStop) :
    detect cfgStd st sp ts = ({ st with holdStop := 0 }, false) := by
  simp only [detect, if_pos hstate, if_neg hsp]

lemma detect_stopped_reset {st : LineState} {ts : Int} {sp : ℚ}
    (hstate : st.lastState = 0) (hsp : ¬ sp ≥ cfgStd.vStart) :
    detect cfgStd st sp ts = ({ st with holdStart := 0 }, false) := by
  have hns : ¬ st.lastState = 1 := by rw [hstate]; decide
  simp only [detect, if_neg hns, if_neg hsp]

lemma detectTrace_held {t0 : Int} (ht0 : t0 ≠ 0) :
    ∀ (L : List Int) (st : LineState),
      st.lastState = 0 → st.holdStart = t0 →
      (∀ t ∈ L, t - t0 < 30) →
      (detectTrace cfgStd st
          (L.map (fun t => ((6 : ℚ)/10, t)))).1 =
        List.replicate L.length false ∧
      (detectTrace cfgStd st
          (L.map (fun t => ((6 : ℚ)/10, t)))).2.lastState = 0 ∧
      (detectTrace cfgStd st
          (L.map (fun t => ((6 : ℚ)/10, t)))).2.holdStart = t0 := by
  intro L
  induction L with
  | nil => intro st h1 h2 _; exact ⟨rfl, h1, h2⟩
  | cons t rest ih =>
      intro st h1 h2 hall
      have hstep := @detect_stopped_hold_set st t0 t ((6 : ℚ)/10)
        h1 h2 ht0 (by norm_num [cfgStd]) (hall t (by simp))
      have hrest := ih { st with holdStart := t0 } h1 rfl
        (fun x hx => hall x (by simp [hx]))
      simp only [List.map_cons, detectTrace, hstep, List.length_cons,
        List.replicate_succ]
      exact ⟨by simp [hrest.1], hrest.2.1, hrest.2.2⟩

/-- C3: with the default thresholds (V_START 0.5, V_STOP 0.3,
delayStart 30, delayStop 30), a STOPPED line whose smoothed speed is
held at 0.6 reports no change on the first qualifying ingest at t0 and
on every later ingest with ts - t0 < 30 (holdStart stays t0), while
the first ingest with ts - holdStart ≥ 30 returns stateChanged = true
and newState = RUNNING, and the next ingest after the transition
reports no further change. -/
theorem hysteresis_start_timing
    (msgs : List Msg) (lp hstop : Int) (sp0 : ℚ)
    (t0 tf tnext : Int) (L : List Int)
    (ht0 : 0 < t0)
    (hL : ∀ t ∈ L, t - t0 < 30)
    (htf : tf - t0 ≥ 30) :
    (detectTrace cfgStd (LineState.mk msgs lp 0 0 hstop sp0)
        ((t0 :: L).map (fun t => ((6 : ℚ)/10, t)))).1 =
      List.replicate (L.length + 1) false ∧
    (detectTrace cfgStd (LineState.mk msgs lp 0 0 hstop sp0)
        ((t0 :: L).map (fun t => ((6 : ℚ)/10, t)))).2.lastState = 0 ∧
    (detect cfgStd (detectTrace cfgStd (LineState.mk msgs lp 0 0 hstop sp0)
        ((t0 :: L).map (fun t => ((6 : ℚ)/10, t)))).2 ((6 : ℚ)/10) tf).2 =
      true ∧
    (detect cfgStd (detectTrace cfgStd (LineState.mk msgs lp 0 0 hstop sp0)
        ((t0 :: L).map (fun t => ((6 : ℚ)/10, t)))).2
        ((6 : ℚ)/10) tf).1.lastState = 1 ∧
    (detect cfgStd
      (detect cfgStd (detectTrace cfgStd (LineState.mk msgs lp 0 0 hstop sp0)
        ((t0 :: L).map (fun t => ((6 : ℚ)/10, t)))).2 ((6 : ℚ)/10) tf).1
      ((6 : ℚ)/10) tnext).2 = false := by
  have hne : t0 ≠ 0 := by omega
  have hstep := @detect_stopped_hold_start
    (LineState.mk msgs lp 0 0 hstop sp0) t0
    ((6 : ℚ)/10) rfl rfl (by norm_num [cfgStd])
  obtain ⟨htr1, htr2, htr3⟩ := detectTrace_held hne L
    (LineState.mk msgs lp 0 t0 hstop sp0) rfl rfl hL
  simp only [List.map_cons, detectTrace, hstep]
  have hfire := @detect_stopped_fires _ _ tf ((6 : ℚ)/10)
    htr2 htr3 hne (by norm_num [cfgStd]) htf
  have hquiet := @detect_running_quiet
    { (detectTrace cfgStd (LineState.mk msgs lp 0 t0 hstop sp0)
        (L.map (fun t => ((6 : ℚ)/10, t)))).2 with
        lastState := 1, holdStart := 0, holdStop := 0 }
    tnext ((6 : ℚ)/10) rfl (by norm_num [cfgStd])
  refine ⟨?_, ?_, ?_, ?_, ?_⟩
  · simp [htr1, List.replicate_succ]
  · exact htr2
  · simp [hfire]
  · simp [hfire]
  · simp [hfire, hquiet]

/-- C3 witness: concrete run — qualifying ingests at 100, 110, 129
stay STOPPED with no change; the ingest at 130 (130 - 100 ≥ 30) fires
the transition to RUNNING, and the ingest at 131 reports no change. -/
theorem hysteresis_start_timing_witness :
    (detectTrace cfgStd (LineState.mk [] 0 0 0 0 0)
        ((((100 : Int)) :: [110, 129]).map (fun t => ((6 : ℚ)/10, t)))).1 =
      List.replicate (([110, 129] : List Int).length + 1) false ∧
    (detectTrace cfgStd (LineState.mk [] 0 0 0 0 0)
        ((((100 : Int)) :: [110, 129]).map (fun t => ((6 : ℚ)/10, t)))).2.lastState = 0 ∧
    (detect cfgStd (detectTrace cfgStd (LineState.mk [] 0 0 0 0 0)
        ((((100 : Int)) :: [110, 129]).map (fun t => ((6 : ℚ)/10, t)))).2
        ((6 : ℚ)/10) 130).2 = true ∧
    (detect cfgStd (detectTrace cfgStd (LineState.mk [] 0 0 0 0 0)
        ((((100 : Int)) :: [110, 129]).map (fun t => ((6 : ℚ)/10, t)))).2
        ((6 : ℚ)/10) 130).1.lastState = 1 ∧
    (detect cfgStd
      (detect cfgStd (detectTrace cfgStd (LineState.mk [] 0 0 0 0 0)
        ((((100 : Int)) :: [110, 129]).map (fun t => ((6 : ℚ)/10, t)))).2
        ((6 : ℚ)/10) 130).1 ((6 : ℚ)/10) 131).2 = false :=
  hysteresis_start_timing [] 0 0 0 100 130 131 [110, 129]
    (by decide) (by decide) (by decide)

/-- C4: while STOPPED, an ingest whose smoothed speed is below V_START
resets holdStart to unset (0); a subsequent ingest back above V_START
restarts the hold timer at that ingest's timestamp, so satisfied time
before the dip does not accumulate toward delayStart, and neither
ingest reports a change. -/
theorem anti_chatter
    (st : LineState) (t1 t2 : Int) (s1 s2 : ℚ)
    (hstate : st.lastState = 0)
    (hdip : ¬ s1 ≥ cfgStd.vStart)
    (hrec : s2 ≥ cfgStd.vStart) :
    (detect cfgStd st s1 t1).1.holdStart = 0 ∧
    (detect cfgStd st s1 t1).2 = false ∧
    (detect cfgStd st s1 t1).1.lastState = 0 ∧
    (detect cfgStd (detect cfgStd st s1 t1).1 s2 t2).1.holdStart = t2 ∧
    (detect cfgStd (detect cfgStd st s1 t1).1 s2 t2).2 = false ∧
    (detect cfgStd (detect cfgStd st s1 t1).1 s2 t2).1.lastState = 0 := by
  have h1 := @detect_stopped_reset st t1 s1 hstate hdip
  have h2 := @detect_stopped_hold_start
    (LineState.mk st.messages st.lastPacket 0 0 st.holdStop
      st.smoothedSpeed)
    t2 s2 rfl rfl hrec
  simp [h1, h2, hstate]

/-- C4 witness: a line whose hold timer had been running since t = 40
sees one dip to speed 0.2 at t = 65 (holdStart cleared) and recovery
to 0.6 at t = 70 (holdStart restarts at 70, state still STOPPED). -/
theorem anti_chatter_witness :
    (detect cfgStd (LineState.mk [] 0 0 40 0 0) (1/5) 65).1.holdStart = 0 ∧
    (detect cfgStd (LineState.mk [] 0 0 40 0 0) (1/5) 65).2 = false ∧
    (detect cfgStd (LineState.mk [] 0 0 40 0 0) (1/5) 65).1.lastState = 0 ∧
    (detect cfgStd (detect cfgStd (LineState.mk [] 0 0 40 0 0)
        (1/5) 65).1 ((6 : ℚ)/10) 70).1.holdStart = 70 ∧
    (detect cfgStd (detect cfgStd (LineState.mk [] 0 0 40 0 0)
        (1/5) 65).1 ((6 : ℚ)/10) 70).2 = false ∧
    (detect cfgStd (detect cfgStd (LineState.mk [] 0 0 40 0 0)
        (1/5) 65).1 ((6 : ℚ)/10) 70).1.lastState = 0 :=
  anti_chatter (LineState.mk [] 0 0 40 0 0) 65 70 (1/5) ((6 : ℚ)/10)
    rfl (by norm_num [cfgStd]) (by norm_num [cfgStd])

lemma detect_messages (cfg : Config) (st : LineState) (sp : ℚ) (ts : Int) :
    (detect cfg st sp ts).1.messages = st.messages := by
  simp only [detect]
  split_ifs <;> rfl

lemma ingestLine_messages (cfg : Config) (line? : Option LineState)
    (p d t : Int) :
    (ingestLine cfg line? p d t).1.messages =
      ((line?.getD (blankLine (normTs t))).messages ++
        [Msg.mk p d (normTs t)]).filter
        (fun m => m.ts ≥ normTs t - cfg.windowSec) := by
  simp only [ingestLine, detect_messages]

lemma ingestLine_speed (cfg : Config) (line? : Option LineState)
    (p d t : Int) :
    (ingestLine cfg line? p d t).2.1 =
      computeSmoothed (((line?.getD (blankLine (normTs t))).messages ++
        [Msg.mk p d (normTs t)]).filter
        (fun m => m.ts ≥ normTs t - cfg.windowSec)) := rfl

/-- C5: after any ingest — regardless of the line's prior window, so
in particular after out-of-order timestamp sequences — every retained
message has timestamp at least now - windowSec, where now is the
normalized timestamp of that ingest. -/
theorem window_invariant (cfg : Config) (line? : Option LineState)
    (pulses duration rawTs : Int) :
    ∀ m ∈ (ingestLine cfg line? pulses duration rawTs).1.messages,
      m.ts ≥ normTs rawTs - cfg.windowSec := by
  intro m hm
  rw [ingestLine_messages] at hm
  simpa using List.of_mem_filter hm

/-- C5 witness: concrete ingest of one packet at t = 100 into a fresh
line; the retained packet satisfies the window bound. -/
theorem window_invariant_witness :
    Msg.mk 0 1000 100 ∈ (ingestLine cfgStd none 0 1000 100).1.messages ∧
    (Msg.mk 0 1000 100).ts ≥ normTs 100 - cfgStd.windowSec := by
  have hmem : Msg.mk 0 1000 100 ∈
      (ingestLine cfgStd none 0 1000 100).1.messages := by
    rw [ingestLine_messages]
    norm_num [blankLine, normTs, cfgStd]
  exact ⟨hmem, window_invariant cfgStd none 0 1000 100 (Msg.mk 0 1000 100) hmem⟩

/-- All messages of a window carry non-negative pulses and durations. -/
def GoodMsgs (msgs : List Msg) : Prop :=
  ∀ m ∈ msgs, 0 ≤ m.pulses ∧ 0 ≤ m.duration

lemma computeSmoothed_nonneg {msgs : List Msg} (h : GoodMsgs msgs) :
    0 ≤ computeSmoothed msgs := by
  unfold computeSmoothed
  by_cases hd : (msgs.map (·.duration)).sum > 0
  · simp only [if_pos hd]
    have hp : (0 : Int) ≤ (msgs.map (·.pulses)).sum :=
      List.sum_nonneg (fun x hx => by
        obtain ⟨m, hm, rfl⟩ := List.mem_map.mp hx
        exact (h m hm).1)
    have hd' : (0 : Int) ≤ (msgs.map (·.duration)).sum := le_of_lt hd
    have h1 : (0 : ℚ) ≤ (((msgs.map (·.pulses)).sum : Int) : ℚ) := by
      exact_mod_cast hp
    have h2 : (0 : ℚ) ≤ (((msgs.map (·.duration)).sum : Int) : ℚ) := by
      exact_mod_cast hd'
    exact mul_nonneg (div_nonneg h1 (div_nonneg h2 (by norm_num)))
      (by norm_num)
  · simp [if_neg hd]

/-- Run a sequence of ingest calls for one line, starting from a given
(or absent) line state, collecting each call's smoothed speed. -/
def ingestSeq (cfg : Config) :
    Option LineState → List (Int × Int × Int) → List ℚ
  | _, [] => []
  | line?, (p, d, t) :: rest =>
      let r := ingestLine cfg line? p d t
      r.2.1 :: ingestSeq cfg (some r.1) rest

lemma ingestLine_good (cfg : Config) (line? : Option LineState)
    {p d t : Int}
    (hline : ∀ l, line? = some l → GoodMsgs l.messages)
    (hp : 0 ≤ p) (hd : 0 ≤ d) :
    GoodMsgs (ingestLine cfg line? p d t).1.messages := by
  intro m hm
  rw [ingestLine_messages] at hm
  rcases List.mem_append.mp (List.mem_of_mem_filter hm) with h | h
  · cases line? with
    | none => simp [blankLine] at h
    | some l => exact hline l rfl m h
  · simp only [List.mem_singleton] at h
    subst h
    exact ⟨hp, hd⟩

lemma ingestSeq_nonneg (cfg : Config) :
    ∀ (pkts : List (Int × Int × Int)) (line? : Option LineState),
      (∀ l, line? = some l → GoodMsgs l.messages) →
      (∀ x ∈ pkts, 0 ≤ x.1 ∧ 0 < x.2.1) →
      ∀ q ∈ ingestSeq cfg line? pkts, 0 ≤ q := by
  intro pkts
  induction pkts with
  | nil => intro line? _ _ q hq; simp [ingestSeq] at hq
  | cons x rest ih =>
      intro line? hline hgood q hq
      obtain ⟨p, d, t⟩ := x
      have hx := hgood (p, d, t) (by simp)
      simp only [ingestSeq, List.mem_cons] at hq
      rcases hq with rfl | hq
      · rw [ingestLine_speed]
        have hg := @ingestLine_good cfg line? p d t
          hline hx.1 (le_of_lt hx.2)
        rw [ingestLine_messages] at hg
        exact computeSmoothed_nonneg hg
      · exact ih (some (ingestLine cfg line? p d t).1)
          (fun l hl => by
            cases hl
            exact ingestLine_good cfg line? hline hx.1 (le_of_lt hx.2))
          (fun y hy => hgood y (by simp [hy])) q hq

/-- C6: for every sequence of ingest calls whose packets have
non-negative pulse counts and positive durations, every smoothed
speed returned is non-negative. -/
theorem smoothed_nonneg (cfg : Config) (pkts : List (Int × Int × Int))
    (hgood : ∀ x ∈ pkts, 0 ≤ x.1 ∧ 0 < x.2.1) :
    ∀ q ∈ ingestSeq cfg none pkts, 0 ≤ q :=
  ingestSeq_nonneg cfg pkts none (fun l hl => by cases hl) hgood

/-- C6 witness: one packet of 5 pulses over 1000 ms yields smoothed
speed 300 ≥ 0. -/
theorem smoothed_nonneg_witness :
    (300 : ℚ) ∈ ingestSeq cfgStd none [(5, 1000, 100)] ∧
    (0 : ℚ) ≤ 300 := by
  have hmem : (300 : ℚ) ∈ ingestSeq cfgStd none [(5, 1000, 100)] := by
    simp only [ingestSeq, List.mem_cons]
    left
    rw [ingestLine_speed]
    norm_num [blankLine, normTs, cfgStd, computeSmoothed]
  exact ⟨hmem, smoothed_nonneg cfgStd [(5, 1000, 100)] (by decide) 300 hmem⟩

/-- A minute bucket `{'sum': .., 'count': ..}` (server.py:212). -/
structure Bucket where
  sum : ℚ
  count : Int
deriving DecidableEq, Repr

/-- The minute map keyed by `(lineId, minuteTs)` (server.py:208-209),
modelled as an association list. -/
abbrev MinuteMap := List ((String × Int) × Bucket)

def getBucket (m : MinuteMap) (k : String × Int) : Option Bucket :=
  (m.find? (fun kv => kv.1 = k)).map (·.2)

def setBucket (m : MinuteMap) (k : String × Int) (b : Bucket) : MinuteMap :=
  m.map (fun kv => if kv.1 = k then (k, b) else kv)

/-- Minute aggregation inside ingest (server.py:207-215): get or
create the bucket keyed by `(lineId, (ts // 60) * 60)`, then add the
smoothed sample to its sum and increment its count. -/
def recordMinute (m : MinuteMap) (lineId : String) (ts : Int)
    (smoothed : ℚ) : MinuteMap :=
  let key := (lineId, ts / 60 * 60)
  let entry := (getBucket m key).getD (Bucket.mk 0 0)
  let m1 := if (getBucket m key).isSome then m else m ++ [(key, entry)]
  setBucket m1 key (Bucket.mk (entry.sum + smoothed) (entry.count + 1))

/-- Model of `Agent.flush_minutes` (server.py:218-234) as a pure function of
the minute map and the current time: every bucket with minute
timestamp strictly below the current minute boundary is removed and
persisted as `(lineId, minuteTs, average)`; the rest remain. -/
def flushMinutes (m : MinuteMap) (now : Int) :
    List (String × Int × ℚ) × MinuteMap :=
  let nowMinute := now / 60 * 60
  ((m.filter (fun kv => kv.1.2 < nowMinute)).map
      (fun kv => (kv.1.1, kv.1.2,
        if kv.2.count > 0 then kv.2.sum / (kv.2.count : ℚ) else 0)),
   m.filter (fun kv => ¬ kv.1.2 < nowMinute))

/-- Two matured buckets, one in minute 0 and one in minute 60. -/
def c7map : MinuteMap :=
  [(("L", 0), Bucket.mk 2 1), (("L", 60), Bucket.mk 4 1)]

/-- C7 (counterexample): flushing at now = 60 persists only the
minute-0 bucket; a second flush at the later time now = 120 with no
new samples recorded in between persists the minute-60 bucket, so the
second flush's output is NOT empty — "no output at the same or later
wall-clock time" fails for a later time. -/
theorem flush_twice_later_not_empty :
    (flushMinutes (flushMinutes c7map 60).2 120).1 ≠ [] := by
  simp [flushMinutes, c7map]

/-- C7 (amended): flushed buckets are removed as they are persisted,
so a second flush whose minute boundary has not advanced past the
first one's produces no output, and — at any later time — the second
flush only ever emits buckets the first flush kept (minute timestamp
at or after the first boundary): no bucket is persisted twice. -/
theorem flush_removes_flushed (m : MinuteMap) (now1 now2 : Int) :
    (now2 / 60 * 60 ≤ now1 / 60 * 60 →
      (flushMinutes (flushMinutes m now1).2 now2).1 = []) ∧
    ∀ o ∈ (flushMinutes (flushMinutes m now1).2 now2).1,
      now1 / 60 * 60 ≤ o.2.1 := by
  constructor
  · intro hle
    simp only [flushMinutes]
    rw [List.map_eq_nil_iff]
    rw [List.filter_eq_nil_iff]
    intro kv hkv
    have hk := List.of_mem_filter hkv
    simp only [decide_eq_true_eq] at hk ⊢
    omega
  · intro o ho
    simp only [flushMinutes] at ho
    obtain ⟨kv, hkv, rfl⟩ := List.mem_map.mp ho
    have h2 := List.of_mem_filter hkv
    have h1 := List.of_mem_filter (List.mem_of_mem_filter hkv)
    simp only [decide_eq_true_eq] at h1 h2
    simpa using h1

/-- C7 witness: with the two-bucket map, a second flush at now = 90
(same minute boundary as the first flush at now = 60) produces no
output, and the row the second flush at now = 120 does emit is a
bucket the first flush kept (minute 60 ≥ boundary 60). -/
theorem flush_removes_flushed_witness :
    ((90 : Int) / 60 * 60 ≤ (60 : Int) / 60 * 60 ∧
      (flushMinutes (flushMinutes c7map 60).2 90).1 = []) ∧
    (("L", 60, (4 : ℚ)) ∈ (flushMinutes (flushMinutes c7map 60).2 120).1 ∧
      (60 : Int) / 60 * 60 ≤ (60 : Int)) := by
  have hmem : ("L", 60, (4 : ℚ)) ∈
      (flushMinutes (flushMinutes c7map 60).2 120).1 := by
    norm_num [flushMinutes, c7map]
  refine ⟨⟨by decide, (flush_removes_flushed c7map 60 90).1 (by decide)⟩,
    hmem, ?_⟩
  exact (flush_removes_flushed c7map 60 120).2 ("L", 60, (4 : ℚ)) hmem

/-- One operation on the minute map: an ingest's aggregation step or
a background flush. -/
inductive AggOp where
  | record (lineId : String) (ts : Int) (speed : ℚ)
  | flush (now : Int)

def applyAggOp (m : MinuteMap) : AggOp → MinuteMap
  | AggOp.record l t s => recordMinute m l t s
  | AggOp.flush now => (flushMinutes m now).2

/-- The minute map reached from empty by a sequence of operations. -/
def applyAggOps (ops : List AggOp) : MinuteMap :=
  ops.foldl applyAggOp []

/-- Every bucket present has received at least one sample. -/
def CountsPos (m : MinuteMap) : Prop := ∀ kv ∈ m, 1 ≤ kv.2.count

lemma mem_setBucket {m : MinuteMap} {k : String × Int} {b : Bucket}
    {kv : (String × Int) × Bucket} (h : kv ∈ setBucket m k b) :
    kv = (k, b) ∨ (kv ∈ m ∧ kv.1 ≠ k) := by
  unfold setBucket at h
  obtain ⟨kv0, hkv0, heq⟩ := List.mem_map.mp h
  by_cases hk : kv0.1 = k
  · left; rw [if_pos hk] at heq; exact heq.symm
  · right
    rw [if_neg hk] at heq
    subst heq
    exact ⟨hkv0, hk⟩

lemma getBucket_count_pos {m : MinuteMap} {k : String × Int} {b : Bucket}
    (hm : CountsPos m) (h : getBucket m k = some b) : 1 ≤ b.count := by
  unfold getBucket at h
  obtain ⟨kv, hfind, hb⟩ := Option.map_eq_some'.mp h
  exact hb ▸ hm kv (List.mem_of_find?_eq_some hfind)

lemma recordMinute_counts {m : MinuteMap} (hm : CountsPos m)
    (l : String) (t : Int) (s : ℚ) : CountsPos (recordMinute m l t s) := by
  intro kv hkv
  simp only [recordMinute] at hkv
  rcases mem_setBucket hkv with heq | ⟨hmem, hne⟩
  · subst heq
    have hc : 0 ≤ ((getBucket m (l, t / 60 * 60)).getD (Bucket.mk 0 0)).count := by
      rcases hg : getBucket m (l, t / 60 * 60) with _ | b
      · simp
      · simpa using le_trans (by norm_num) (getBucket_count_pos hm hg)
    simpa using by omega
  · rcases hs : (getBucket m (l, t / 60 * 60)).isSome with _ | _
    · rw [hs] at hmem
      simp only [Bool.false_eq_true, if_false] at hmem
      rcases List.mem_append.mp hmem with h | h
      · exact hm kv h
      · simp only [List.mem_singleton] at h
        subst h
        exact absurd rfl hne
    · rw [hs] at hmem
      simp only [if_true] at hmem
      exact hm kv hmem

lemma flushMinutes_counts {m : MinuteMap} (hm : CountsPos m) (now : Int) :
    CountsPos (flushMinutes m now).2 := by
  intro kv hkv
  exact hm kv (List.mem_of_mem_filter hkv)

lemma applyAggOps_counts_aux :
    ∀ (ops : List AggOp) (m : MinuteMap), CountsPos m →
      CountsPos (ops.foldl applyAggOp m) := by
  intro ops
  induction ops with
  | nil => intro m hm; exact hm
  | cons op rest ih =>
      intro m hm
      cases op with
      | record l t s => exact ih _ (recordMinute_counts hm l t s)
      | flush now => exact ih _ (flushMinutes_counts hm now)

/-- C8: after any sequence of ingest-aggregation and flush operations
starting from the empty minute map, every bucket in the map has
count ≥ 1 (a bucket is only created together with its first sample),
and consequently the count-zero default branch of the flush average
is never taken: every flush output is literally sum/count. -/
theorem minute_bucket_counts_pos (ops : List AggOp) :
    (∀ kv ∈ applyAggOps ops, 1 ≤ kv.2.count) ∧
    ∀ now, (flushMinutes (applyAggOps ops) now).1 =
      ((applyAggOps ops).filter (fun kv => kv.1.2 < now / 60 * 60)).map
        (fun kv => (kv.1.1, kv.1.2, kv.2.sum / (kv.2.count : ℚ))) := by
  have hc : CountsPos (applyAggOps ops) :=
    applyAggOps_counts_aux ops [] (by intro kv hkv; simp at hkv)
  refine ⟨hc, ?_⟩
  intro now
  simp only [flushMinutes]
  apply List.map_congr_left
  intro kv hkv
  have := hc kv (List.mem_of_mem_filter hkv)
  rw [if_pos (by omega)]

/-- C8 witness: after recording one sample, the single minute bucket
has count 1, and the flush at now = 120 emits its true average. -/
theorem minute_bucket_counts_pos_witness :
    ((("L", 0), Bucket.mk 2 1) ∈ applyAggOps [AggOp.record "L" 30 2] ∧
      1 ≤ (Bucket.mk (2 : ℚ) 1).count) ∧
    (flushMinutes (applyAggOps [AggOp.record "L" 30 2]) 120).1 =
      ((applyAggOps [AggOp.record "L" 30 2]).filter
        (fun kv => kv.1.2 < (120 : Int) / 60 * 60)).map
        (fun kv => (kv.1.1, kv.1.2, kv.2.sum / (kv.2.count : ℚ))) := by
  have hmem : (("L", 0), Bucket.mk 2 1) ∈
      applyAggOps [AggOp.record "L" 30 2] := by
    norm_num [applyAggOps, applyAggOp, recordMinute, getBucket, setBucket]
  exact ⟨⟨hmem, (minute_bucket_counts_pos [AggOp.record "L" 30 2]).1
      (("L", 0), Bucket.mk 2 1) hmem⟩,
    (minute_bucket_counts_pos [AggOp.record "L" 30 2]).2 120⟩

/-- Model of `Agent.handle_offline` (server.py:236-250): for a known line,
clear the packet window, zero the smoothed speed and both hold
timers, and force STOPPED (reporting a change) only when the line was
RUNNING; an unknown line returns False untouched. -/
def handleOffline (line? : Option LineState) : Option LineState × Bool :=
  match line? with
  | none => (none, false)
  | some line =>
      let cleared : LineState := { line with
        messages := [], smoothedSpeed := 0, holdStart := 0, holdStop := 0 }
      if cleared.lastState = 1 then (some { cleared with lastState := 0 }, true)
      else (some cleared, false)

/-- One status row of the watchdog sweep (server.py:957-961):
`handle_offline` runs only when the row's `lastPacketTime` is truthy
(non-zero) and stale by more than the timeout. -/
def sweepRow (lastPacketTime now timeout : Int)
    (line? : Option LineState) : Option LineState × Bool :=
  if lastPacketTime ≠ 0 ∧ now - lastPacketTime > timeout then
    handleOffline line?
  else (line?, false)

/-- C9: a known line whose last packet is older than the timeout and
whose state is RUNNING is forced to STOPPED and reported changed by
the sweep; the same staleness with state STOPPED is not reported
changed; rows whose lastPacketTime was never set (0) are skipped, and
an unknown line yields no event. -/
theorem offline_watchdog_reporting :
    (∀ (line : LineState) (last now timeout : Int),
      line.lastState = 1 → last ≠ 0 → now - last > timeout →
      (sweepRow last now timeout (some line)).2 = true ∧
      (sweepRow last now timeout (some line)).1 =
        some (LineState.mk [] line.lastPacket 0 0 0 0)) ∧
    (∀ (line : LineState) (last now timeout : Int),
      line.lastState = 0 → last ≠ 0 → now - last > timeout →
      (sweepRow last now timeout (some line)).2 = false) ∧
    (∀ (now timeout : Int) (line? : Option LineState),
      sweepRow 0 now timeout line? = (line?, false)) ∧
    (∀ (last now timeout : Int),
      sweepRow last now timeout none = (none, false)) := by
  refine ⟨?_, ?_, ?_, ?_⟩
  · intro line last now timeout h1 h2 h3
    simp [sweepRow, if_pos (And.intro h2 h3), handleOffline, h1]
  · intro line last now timeout h1 h2 h3
    simp [sweepRow, if_pos (And.intro h2 h3), handleOffline, h1]
  · intro now timeout line?
    simp [sweepRow]
  · intro last now timeout
    by_cases h : last ≠ 0 ∧ now - last > timeout <;>
      simp [sweepRow, h, handleOffline]

/-- C9 witness: a line last seen 61 s ago with timeout 60 while
RUNNING is forced to STOPPED and reported; the same staleness while
STOPPED reports nothing; a zero lastPacketTime row and an unknown
line are untouched. -/
theorem offline_watchdog_reporting_witness :
    ((sweepRow 939 1000 60 (some (LineState.mk [] 5 1 0 0 0))).2 = true ∧
      (sweepRow 939 1000 60 (some (LineState.mk [] 5 1 0 0 0))).1 =
        some (LineState.mk [] 5 0 0 0 0)) ∧
    (sweepRow 939 1000 60 (some (LineState.mk [] 5 0 0 0 0))).2 = false ∧
    sweepRow 0 1000 60 (some (LineState.mk [] 5 0 0 0 0)) =
      (some (LineState.mk [] 5 0 0 0 0), false) ∧
    sweepRow 939 1000 60 none = (none, false) := by
  obtain ⟨p1, p2, p3, p4⟩ := offline_watchdog_reporting
  exact ⟨p1 (LineState.mk [] 5 1 0 0 0) 939 1000 60 rfl (by decide) (by decide),
    p2 (LineState.mk [] 5 0 0 0 0) 939 1000 60 rfl (by decide) (by decide),
    p3 1000 60 (some (LineState.mk [] 5 0 0 0 0)),
    p4 939 1000 60⟩

/-- A STOPPED line with a non-empty window, a non-zero smoothed speed
and a running stop-hold timer. -/
def c10line : LineState := LineState.mk [Msg.mk 1 1000 10] 10 0 0 7 5

/-- C10 (counterexample): a sweep acting on a stale line that is
already STOPPED does NOT leave its runtime state untouched: its
packet window, smoothed speed and hold timers are all cleared, even
though no state change is reported. -/
theorem sweep_clears_stopped_line :
    (sweepRow 10 100 60 (some c10line)).1 =
      some (LineState.mk [] 10 0 0 0 0) ∧
    (sweepRow 10 100 60 (some c10line)).2 = false ∧
    LineState.mk [] 10 0 0 0 0 ≠ c10line := by
  refine ⟨?_, ?_, ?_⟩
  · simp [sweepRow, handleOffline, c10line]
  · simp [sweepRow, handleOffline, c10line]
  · intro h
    have := congrArg LineState.messages h
    simp [c10line] at this

/-- C10 (amended): a sweep on a stale line that is already STOPPED
reports no state change and keeps lastState = 0, but it does clear
the line's packet window, smoothed speed and hold timers; rows whose
staleness condition does not hold (in particular lines that never
sent a packet, lastPacketTime = 0) are left completely untouched with
no event. -/
theorem sweep_stopped_no_event
    (line : LineState) (last now timeout : Int)
    (hstate : line.lastState = 0) (hne : last ≠ 0)
    (hstale : now - last > timeout) :
    (sweepRow last now timeout (some line)).2 = false ∧
    (sweepRow last now timeout (some line)).1 =
      some (LineState.mk [] line.lastPacket 0 0 0 0) ∧
    ∀ (l? : Option LineState) (last2 : Int),
      ¬ (last2 ≠ 0 ∧ now - last2 > timeout) →
      sweepRow last2 now timeout l? = (l?, false) := by
  refine ⟨?_, ?_, ?_⟩
  · simp [sweepRow, if_pos (And.intro hne hstale), handleOffline, hstate]
  · simp [sweepRow, if_pos (And.intro hne hstale), handleOffline, hstate]
  · intro l? last2 hcond
    simp [sweepRow, if_neg hcond]

/-- C10 witness: the concrete stale STOPPED line of the
counterexample — no event, state cleared; a fresh row (condition
false) is untouched. -/
theorem sweep_stopped_no_event_witness :
    (sweepRow 10 100 60 (some c10line)).2 = false ∧
    (sweepRow 10 100 60 (some c10line)).1 =
      some (LineState.mk [] 10 0 0 0 0) ∧
    ∀ (l? : Option LineState) (last2 : Int),
      ¬ (last2 ≠ 0 ∧ (100 : Int) - last2 > 60) →
      sweepRow last2 100 60 l? = (l?, false) :=
  sweep_stopped_no_event c10line 10 100 60 rfl (by decide) (by decide)
